import Mathlib

/-!
# Admission controller: image rewrite and patch construction

A shallow embedding of `HandleMutate` from `main.go` (a Kubernetes mutating
admission webhook) together with theorems about its image-rewrite rule, the
JSON Patch list it builds and the response it assembles.

Go strings are modelled as lists of characters.  The handler only uses prefix
tests, substring search for an ASCII marker, slicing at a found index and
concatenation, and all of these commute with the UTF-8 encoding.
-/

namespace AdmissionController

/-- Go `string`, as a list of characters. -/
abbrev Str := List Char

/-! ## Library functions used by the handler -/

/-- Go `strings.HasPrefix(s, prefix)`:
`len(s) >= len(prefix) && s[:len(prefix)] == prefix`. -/
def hasPrefix (s pre : Str) : Bool :=
  decide (pre.length ≤ s.length) && (s.take pre.length == pre)

/-- Search loop of `strings.Index`: `i` is the offset of `s` in the original string. -/
def indexFrom (substr : Str) : Str → Nat → Int
  | [], i => if substr = [] then (i : Int) else -1
  | c :: cs, i => if hasPrefix (c :: cs) substr then (i : Int) else indexFrom substr cs (i + 1)

/-- Go `strings.Index(s, substr)`: the index of the first instance of `substr`
in `s`, or `-1` if `substr` is not present in `s`. -/
def index (s substr : Str) : Int := indexFrom substr s 0

/-- The `%d` verb of `fmt.Sprintf` on a non-negative `int`: decimal digits. -/
def fmtD (i : Nat) : Str := Nat.toDigits 10 i

/-! ## Data model -/

/-- The type `patchOperation` of `main.go`; `Value` only ever holds a string. -/
structure patchOperation where
  Op : Str
  Path : Str
  Value : Str
  deriving DecidableEq, Repr

/-- The part of `corev1.Container` the handler reads. -/
structure Container where
  Image : Str
  deriving DecidableEq, Repr

/-- The part of `corev1.PodSpec` the handler reads. -/
structure PodSpec where
  Containers : List Container
  InitContainers : List Container
  deriving DecidableEq, Repr

/-- The part of `corev1.Pod` the handler reads. -/
structure Pod where
  Name : Str
  Namespace : Str
  Spec : PodSpec
  deriving DecidableEq, Repr

/-! ## The image rewrite rule -/

/-- The digest marker searched for by `mutateImageName`. -/
def digestMarker : Str := "@sha256:".toList

/-- The closure `mutateImageName` of `HandleMutate`, with the captured
`privateRegistry` and `publicProject` as explicit arguments. -/
def mutateImageName (privateRegistry publicProject image : Str) : Str :=
  if hasPrefix image privateRegistry then
    image
  else
    let atIndex := index image digestMarker
    let image := if atIndex ≠ -1 then image.take atIndex.toNat else image
    privateRegistry ++ "/".toList ++ publicProject ++ "/".toList ++ image


/-! ## The patch-building loops -/

/-- `fmt.Sprintf("/spec/containers/%d/image", i)`. -/
def containerPath (i : Nat) : Str :=
  "/spec/containers/".toList ++ fmtD i ++ "/image".toList

/-- `fmt.Sprintf("/spec/initContainers/%d/image", i)`. -/
def initContainerPath (i : Nat) : Str :=
  "/spec/initContainers/".toList ++ fmtD i ++ "/image".toList

/-- One `for i, container := range ...` loop of `HandleMutate`.  The two loops
of the source have the same body and differ only in the path format, which is
the argument `path`.  `i` is the index of the head of the remaining list and
`patches` the slice accumulated so far. -/
def patchLoop (privateRegistry publicProject : Str) (path : Nat → Str) :
    List Container → Nat → List patchOperation → List patchOperation
  | [], _, patches => patches
  | container :: rest, i, patches =>
    let originalImage := container.Image
    if !hasPrefix originalImage privateRegistry then
      let newImage := mutateImageName privateRegistry publicProject originalImage
      patchLoop privateRegistry publicProject path rest (i + 1)
        (patches ++ [{ Op := "replace".toList, Path := path i, Value := newImage }])
    else
      patchLoop privateRegistry publicProject path rest (i + 1) patches

/-- The value of `patches` after both loops of `HandleMutate`: it starts as the
nil slice, the loop over `pod.Spec.Containers` runs first and the loop over
`pod.Spec.InitContainers` second. -/
def buildPatches (privateRegistry publicProject : Str) (pod : Pod) : List patchOperation :=
  let patches : List patchOperation := []
  let patches := patchLoop privateRegistry publicProject containerPath pod.Spec.Containers 0 patches
  patchLoop privateRegistry publicProject initContainerPath pod.Spec.InitContainers 0 patches

/-! ## Envelope types and the handler -/

/-- Go `[]byte`, held as the text it spells. -/
abbrev Bytes := Str

/-- The part of `admissionv1.AdmissionRequest` the handler reads: the UID and
the raw bytes of the submitted object (`Object.Raw`). -/
structure AdmissionRequest where
  UID : Str
  Object : Bytes
  deriving DecidableEq, Repr

/-- The fields of `admissionv1.AdmissionResponse` the handler sets.  `PatchType`
is a pointer in the source, `none` is nil. -/
structure AdmissionResponse where
  UID : Str
  Allowed : Bool
  Patch : Bytes
  PatchType : Option Str
  deriving DecidableEq, Repr

/-- The type `admissionv1.AdmissionReview`: type meta, request and response
sections (both pointers, `none` is nil). -/
structure AdmissionReview where
  APIVersion : Str
  Kind : Str
  Request : Option AdmissionRequest
  Response : Option AdmissionResponse
  deriving DecidableEq, Repr

/-- The constant `admissionv1.PatchTypeJSONPatch`. -/
def PatchTypeJSONPatch : Str := "JSONPatch".toList

/-- What the handler sends: either `http.Error(w, error, code)`, or the final
`w.Write(responseBytes)` with content type `application/json` (status 200),
kept as the envelope that `responseBytes` encodes. -/
inductive HttpResult where
  | httpError (error : Str) (code : Nat)
  | write (review : AdmissionReview)
  deriving DecidableEq, Repr

/-- The constant `http.StatusBadRequest`. -/
def StatusBadRequest : Nat := 400

/-- The constant `http.StatusInternalServerError`. -/
def StatusInternalServerError : Nat := 500

/-- Encoding of one `patchOperation` by `encoding/json`, in field order with the
struct tags of the source; `quote` is the library's JSON string encoder.  The
`omitempty` on `value` never drops the field, since the interface holds a
string and is not nil. -/
def jsonPatchOperation (quote : Str → Str) (op : patchOperation) : Bytes :=
  "\x7b\"op\":".toList ++ quote op.Op ++ ",\"path\":".toList ++ quote op.Path
    ++ ",\"value\":".toList ++ quote op.Value ++ "\x7d".toList

/-- The call `json.Marshal(patches)`.  A nil slice encodes as the JSON value
`null`, any other slice as a JSON array.  In `HandleMutate` the slice is
declared with `var`, so it is nil exactly when nothing was appended, which is
the empty list here.  No error arises for this element type. -/
def jsonMarshalPatches (quote : Str → Str) (patches : List patchOperation) :
    Except Str Bytes :=
  match patches with
  | [] => .ok "null".toList
  | _ => .ok ("[".toList ++ ",".toList.intercalate (patches.map (jsonPatchOperation quote))
      ++ "]".toList)

/-- The handler `HandleMutate`, from the request body already read to what is
sent back.  The collaborators are arguments: `decode` is
`universalDeserializer.Decode` into an `AdmissionReview`, `unmarshalPod` is
`json.Unmarshal` into a `corev1.Pod`, `quote` is the JSON string encoder and
`getenv` is `os.Getenv`.  The final `json.Marshal` of the response envelope has
no failing case for the fields set here, so its error branch is left out and
the envelope itself is the result. -/
def HandleMutate (decode : Bytes → Except Str AdmissionReview)
    (unmarshalPod : Bytes → Except Str Pod) (quote : Str → Str)
    (getenv : Str → Str) (body : Bytes) : HttpResult :=
  match decode body with
  | .error err =>
    .httpError ("could not deserialize request: ".toList ++ err) StatusBadRequest
  | .ok admissionReviewReq =>
    match admissionReviewReq.Request with
    | none =>
      .httpError "malformed admission review: request is nil".toList StatusBadRequest
    | some request =>
      match unmarshalPod request.Object with
      | .error err =>
        .httpError ("could not unmarshal pod on admission request: ".toList ++ err)
          StatusBadRequest
      | .ok pod =>
        let privateRegistry := getenv "PRIVATE_REGISTRY".toList
        let publicProject := getenv "PUBLIC_PROJECT".toList
        if privateRegistry = [] ∨ publicProject = [] then
          .httpError
            "private registry or public project environment variables are not set".toList
            StatusInternalServerError
        else
          let patches := buildPatches privateRegistry publicProject pod
          match jsonMarshalPatches quote patches with
          | .error err =>
            .httpError ("could not marshal JSON patch: ".toList ++ err)
              StatusInternalServerError
          | .ok patchBytes =>
            .write
              { APIVersion := "admission.k8s.io/v1".toList
                Kind := "AdmissionReview".toList
                Request := none
                Response := some
                  { UID := request.UID
                    Allowed := true
                    Patch := patchBytes
                    PatchType := some PatchTypeJSONPatch } }


/-! ## Auxiliary definitions for the statements -/

/-- Reads a decimal numeral back, most significant digit first, starting from `a`. -/
def readDecimal (a : Nat) (ds : Str) : Nat :=
  ds.foldl (fun a c => 10 * a + (c.toNat - 48)) a

/-- Model of the caller: one JSON Patch `replace` operation applied to a
container list whose image paths are given by `path`.  The container at index
`i` gets the operation's value as its image when the operation addresses
`path i`; `i` is the index of the head of the list. -/
def replaceImage (path : Nat → Str) (op : patchOperation) :
    List Container → Nat → List Container
  | [], _ => []
  | c :: cs, i =>
    (if op.Op = "replace".toList ∧ op.Path = path i then { c with Image := op.Value } else c)
      :: replaceImage path op cs (i + 1)

/-- Model of the caller: one operation applied to both container lists of a Pod. -/
def applyOperation (pod : Pod) (op : patchOperation) : Pod :=
  { pod with
    Spec :=
      { Containers := replaceImage containerPath op pod.Spec.Containers 0
        InitContainers := replaceImage initContainerPath op pod.Spec.InitContainers 0 } }

/-- Model of the caller: the API server applies the operations of the returned
JSON Patch to the Pod in listed order. -/
def applyPatch (patches : List patchOperation) (pod : Pod) : Pod :=
  patches.foldl applyOperation pod

/-! ## Concrete inputs used in the examples -/

/-- A body that spells an admission review without a request section. -/
def bodyWithoutRequest : Bytes :=
  "\x7b\"apiVersion\":\"admission.k8s.io/v1\",\"kind\":\"AdmissionReview\"\x7d".toList

/-- A deserializer that reads `bodyWithoutRequest` as an envelope whose request
is nil and rejects every other body. -/
def decodeWithoutRequest (body : Bytes) : Except Str AdmissionReview :=
  if body = bodyWithoutRequest then
    .ok { APIVersion := "admission.k8s.io/v1".toList, Kind := "AdmissionReview".toList,
          Request := none, Response := none }
  else .error "unexpected end of JSON input".toList

/-- An environment in which no variable is set: `os.Getenv` returns `""`. -/
def unsetEnv (_ : Str) : Str := []

/-- An environment with `PRIVATE_REGISTRY=reg.internal` and `PUBLIC_PROJECT=mirror`. -/
def sampleEnv (name : Str) : Str :=
  if name = "PRIVATE_REGISTRY".toList then "reg.internal".toList
  else if name = "PUBLIC_PROJECT".toList then "mirror".toList
  else []

/-- A Pod with three containers of which only the second needs rewriting, and
one init container that needs none. -/
def samplePod : Pod :=
  { Name := "web".toList
    Namespace := "default".toList
    Spec :=
      { Containers := [⟨"reg.internal/mirror/a:1".toList⟩, ⟨"nginx:latest".toList⟩,
          ⟨"reg.internal/mirror/c:3".toList⟩]
        InitContainers := [⟨"reg.internal/mirror/init:1".toList⟩] } }

/-- A Pod all of whose images already begin with `reg.internal`. -/
def compliantPod : Pod :=
  { Name := "web".toList
    Namespace := "default".toList
    Spec :=
      { Containers := [⟨"reg.internal/mirror/a:1".toList⟩]
        InitContainers := [⟨"reg.internal/mirror/init:1".toList⟩] } }

/-- A Pod whose containers at indices 0 and 2 and whose init container at index 1
need rewriting. -/
def mixedPod : Pod :=
  { Name := "job".toList
    Namespace := "default".toList
    Spec :=
      { Containers := [⟨"busybox".toList⟩, ⟨"reg.internal/mirror/b".toList⟩,
          ⟨"public.io/app:1.0@sha256:abcd".toList⟩]
        InitContainers := [⟨"reg.internal/mirror/i".toList⟩, ⟨"alpine:3".toList⟩] } }

/-- A deserializer that reads every body as a request with UID `uid` carrying
the raw object `raw`. -/
def decodeRequest (uid : Str) (raw : Bytes) (_ : Bytes) : Except Str AdmissionReview :=
  .ok { APIVersion := "admission.k8s.io/v1".toList, Kind := "AdmissionReview".toList,
        Request := some { UID := uid, Object := raw }, Response := none }

/-- A Pod decoder that reads every raw object as `pod`. -/
def unmarshalAs (pod : Pod) (_ : Bytes) : Except Str Pod := .ok pod

/-! ## Facts about the library functions -/

theorem hasPrefix_iff (s pre : Str) : hasPrefix s pre = true ↔ pre <+: s := by
  unfold hasPrefix
  rw [Bool.and_eq_true, decide_eq_true_eq, beq_iff_eq, List.prefix_iff_eq_take]
  constructor
  · rintro ⟨_, h⟩
    exact h.symm
  · intro h
    refine ⟨?_, h.symm⟩
    have hl := congrArg List.length h
    rw [List.length_take] at hl
    omega

theorem hasPrefix_eq_false_iff (s pre : Str) : hasPrefix s pre = false ↔ ¬ pre <+: s := by
  rw [← hasPrefix_iff, Bool.not_eq_true]

/-- What `indexFrom` returns: `-1` when `substr` does not occur, and otherwise the
offset plus the length of the shortest `T` with `s = T ++ substr ++ rest`. -/
theorem indexFrom_spec (substr : Str) : ∀ (s : Str) (i : Nat),
    (¬ substr <:+: s ∧ indexFrom substr s i = -1) ∨
    (∃ T rest, s = T ++ substr ++ rest ∧ indexFrom substr s i = ((i + T.length : Nat) : Int) ∧
      ∀ T' rest', s = T' ++ substr ++ rest' → T.length ≤ T'.length)
  | [], i => by
    unfold indexFrom
    by_cases h : substr = []
    · right
      refine ⟨[], [], by simp [h], by simp [h], by simp⟩
    · left
      simp [h]
  | c :: cs, i => by
    unfold indexFrom
    by_cases h : hasPrefix (c :: cs) substr = true
    · right
      obtain ⟨rest, hrest⟩ := (hasPrefix_iff _ _).1 h
      refine ⟨[], rest, by simp [hrest], by simp [h], by simp⟩
    · have hnp : ¬ substr <+: c :: cs := fun hp => h ((hasPrefix_iff _ _).2 hp)
      rw [if_neg h]
      rcases indexFrom_spec substr cs (i + 1) with ⟨hno, hidx⟩ | ⟨T, rest, hs, hidx, hmin⟩
      · left
        refine ⟨?_, hidx⟩
        rw [List.infix_cons_iff]
        rintro (hp | hi)
        · exact hnp hp
        · exact hno hi
      · right
        refine ⟨c :: T, rest, by simp [hs], ?_, ?_⟩
        · rw [hidx]
          simp only [List.length_cons]
          congr 1
          omega
        · intro T' rest' h'
          cases T' with
          | nil =>
            exfalso
            apply hnp
            exact ⟨rest', by simpa using h'.symm⟩
          | cons d T'' =>
            simp only [List.cons_append, List.cons.injEq] at h'
            have := hmin T'' rest' h'.2
            simp only [List.length_cons]
            omega

theorem index_eq_neg_one (s substr : Str) (h : ¬ substr <:+: s) : index s substr = -1 := by
  unfold index
  rcases indexFrom_spec substr s 0 with ⟨_, hidx⟩ | ⟨T, rest, hs, _, _⟩
  · exact hidx
  · exact absurd ⟨T, rest, hs.symm⟩ h

theorem index_first (s substr T rest : Str) (hs : s = T ++ substr ++ rest)
    (hmin : ∀ T' rest', s = T' ++ substr ++ rest' → T.length ≤ T'.length) :
    index s substr = (T.length : Int) := by
  unfold index
  rcases indexFrom_spec substr s 0 with ⟨hno, _⟩ | ⟨T₀, rest₀, hs₀, hidx, hmin₀⟩
  · exact absurd ⟨T, rest, hs.symm⟩ hno
  · have h1 := hmin T₀ rest₀ hs₀
    have h2 := hmin₀ T rest hs
    rw [hidx]
    congr 1
    omega

/-! ## Facts about `mutateImageName` -/

theorem mutateImageName_unchanged (R P I : Str) (h : R <+: I) : mutateImageName R P I = I := by
  unfold mutateImageName
  rw [if_pos ((hasPrefix_iff _ _).2 h)]

theorem mutateImageName_plain (R P I : Str) (hR : ¬ R <+: I) (hD : ¬ digestMarker <:+: I) :
    mutateImageName R P I = R ++ "/".toList ++ P ++ "/".toList ++ I := by
  unfold mutateImageName
  have h : ¬ hasPrefix I R = true := fun h => hR ((hasPrefix_iff _ _).1 h)
  rw [if_neg h]
  simp [index_eq_neg_one I digestMarker hD]

theorem mutateImageName_digest (R P I T rest : Str) (hR : ¬ R <+: I)
    (hI : I = T ++ digestMarker ++ rest)
    (hmin : ∀ T' rest', I = T' ++ digestMarker ++ rest' → T.length ≤ T'.length) :
    mutateImageName R P I = R ++ "/".toList ++ P ++ "/".toList ++ T := by
  unfold mutateImageName
  have h : ¬ hasPrefix I R = true := fun h => hR ((hasPrefix_iff _ _).1 h)
  rw [if_neg h]
  have hidx := index_first I digestMarker T rest hI hmin
  have hne : (T.length : Int) ≠ -1 := by omega
  have htake : I.take T.length = T := by
    rw [hI, List.append_assoc, List.take_left]
  simp only [hidx, hne, ne_eq, not_false_eq_true, if_true, Int.toNat_ofNat, htake]

/-- The rewritten form of any image begins with the private registry. -/
theorem prefix_mutateImageName (R P I : Str) : R <+: mutateImageName R P I := by
  by_cases h : R <+: I
  · rw [mutateImageName_unchanged R P I h]
    exact h
  · unfold mutateImageName
    rw [if_neg (fun h' => h ((hasPrefix_iff _ _).1 h'))]
    simp only [List.append_assoc]
    exact List.prefix_append _ _

/-- An occurrence of `m` in `a ++ c :: b` lies in `a` or in `b` when `c` is not in `m`. -/
theorem infix_append_cons_of_not_mem {m a b : Str} {c : Char} (hc : c ∉ m)
    (h : m <:+: a ++ c :: b) : m <:+: a ∨ m <:+: b := by
  obtain ⟨s, t, hst⟩ := h
  rw [List.append_assoc, List.append_eq_append_iff] at hst
  rcases hst with ⟨a', ha, h1⟩ | ⟨c', hs, h2⟩
  · rw [List.append_eq_append_iff] at h1
    rcases h1 with ⟨x, hm, _⟩ | ⟨y, hm, hy⟩
    · left
      exact ⟨s, x, by rw [ha, hm, List.append_assoc]⟩
    · cases y with
      | nil =>
        left
        rw [List.append_nil] at hm
        exact ⟨s, [], by rw [ha, hm, List.append_nil]⟩
      | cons d y' =>
        exfalso
        apply hc
        simp only [List.cons_append, List.cons.injEq] at hy
        rw [hm, hy.1]
        simp
  · cases c' with
    | nil =>
      cases m with
      | nil => left; exact List.nil_infix
      | cons d m' =>
        exfalso
        apply hc
        simp only [List.nil_append, List.cons_append, List.cons.injEq] at h2
        rw [h2.1]
        simp
    | cons d c'' =>
      right
      simp only [List.cons_append, List.cons.injEq] at h2
      exact ⟨c'', t, by rw [h2.2, List.append_assoc]⟩

theorem slash_not_mem_digestMarker : '/' ∉ digestMarker := by decide

/-- The rewritten form of an image that does not begin with `R` is `R/P/T` for a
prefix `T` of the image in which the digest marker does not occur. -/
theorem mutateImageName_shape (R P I : Str) (hR : ¬ R <+: I) :
    ∃ T, T <+: I ∧ ¬ digestMarker <:+: T ∧
      mutateImageName R P I = R ++ "/".toList ++ P ++ "/".toList ++ T := by
  by_cases hD : digestMarker <:+: I
  · rcases indexFrom_spec digestMarker I 0 with ⟨hno, _⟩ | ⟨T, rest, hI, _, hmin⟩
    · exact absurd hD hno
    · refine ⟨T, ⟨digestMarker ++ rest, by rw [hI, List.append_assoc]⟩, ?_,
        mutateImageName_digest R P I T rest hR hI hmin⟩
      rintro ⟨a, b, hab⟩
      have := hmin a (b ++ digestMarker ++ rest) (by rw [hI, ← hab]; simp)
      have hlen := congrArg List.length hab
      simp only [List.length_append] at hlen
      have : digestMarker.length = 8 := by decide
      omega
  · exact ⟨I, List.prefix_refl I, hD, mutateImageName_plain R P I hR hD⟩

theorem not_infix_mutateImageName (R P I : Str) (hR : ¬ R <+: I)
    (hRd : ¬ digestMarker <:+: R) (hPd : ¬ digestMarker <:+: P) :
    ¬ digestMarker <:+: mutateImageName R P I := by
  obtain ⟨T, _, hT, heq⟩ := mutateImageName_shape R P I hR
  rw [heq]
  intro h
  have h' : digestMarker <:+: R ++ '/' :: (P ++ '/' :: T) := by
    simpa [List.append_assoc] using h
  rcases infix_append_cons_of_not_mem slash_not_mem_digestMarker h' with h1 | h2
  · exact hRd h1
  · rcases infix_append_cons_of_not_mem slash_not_mem_digestMarker h2 with h3 | h4
    · exact hPd h3
    · exact hT h4

/-! ## Decimal indices and paths -/

theorem digitChar_toNat (k : Nat) (h : k < 10) : (Nat.digitChar k).toNat - 48 = k := by
  interval_cases k <;> rfl

theorem readDecimal_toDigitsCore : ∀ (fuel n : Nat) (ds : Str), n < fuel →
    readDecimal 0 (Nat.toDigitsCore 10 fuel n ds) = readDecimal n ds
  | 0, _, _, h => absurd h (Nat.not_lt_zero _)
  | fuel + 1, n, ds, h => by
    unfold Nat.toDigitsCore
    have hd : (Nat.digitChar (n % 10)).toNat - 48 = n % 10 :=
      digitChar_toNat _ (Nat.mod_lt _ (by decide))
    by_cases h0 : n / 10 = 0
    · simp only [h0, if_true]
      have : n % 10 = n := Nat.mod_eq_of_lt (by omega)
      simp only [readDecimal, List.foldl_cons, List.foldl_nil, Nat.mul_zero, Nat.zero_add]
      rw [hd, this]
    · simp only [h0, if_false]
      rw [readDecimal_toDigitsCore fuel (n / 10) _ (by omega)]
      simp only [readDecimal, List.foldl_cons, hd]
      congr 1
      omega

theorem fmtD_injective : Function.Injective fmtD := by
  intro a b h
  have ha := readDecimal_toDigitsCore (a + 1) a [] (Nat.lt_succ_self a)
  have hb := readDecimal_toDigitsCore (b + 1) b [] (Nat.lt_succ_self b)
  unfold fmtD Nat.toDigits at h
  rw [h, hb] at ha
  simpa [readDecimal] using ha.symm

theorem containerPath_injective : Function.Injective containerPath := by
  intro a b h
  unfold containerPath at h
  rw [List.append_assoc, List.append_assoc, List.append_cancel_left_eq,
    List.append_cancel_right_eq] at h
  exact fmtD_injective h

theorem initContainerPath_injective : Function.Injective initContainerPath := by
  intro a b h
  unfold initContainerPath at h
  rw [List.append_assoc, List.append_assoc, List.append_cancel_left_eq,
    List.append_cancel_right_eq] at h
  exact fmtD_injective h

theorem containerPath_ne_initContainerPath (a b : Nat) : containerPath a ≠ initContainerPath b := by
  intro h
  have h7 := congrArg (fun l => l.get? 6) h
  simp [containerPath, initContainerPath] at h7

/-! ## Facts about the patch-building loops -/

theorem patchLoop_append (R P : Str) (path : Nat → Str) : ∀ (cs : List Container) (i : Nat)
    (acc : List patchOperation),
    patchLoop R P path cs i acc = acc ++ patchLoop R P path cs i []
  | [], i, acc => by simp [patchLoop]
  | c :: cs, i, acc => by
    unfold patchLoop
    by_cases h : hasPrefix c.Image R = true
    · simp only [h, Bool.not_true, Bool.false_eq_true, if_false]
      exact patchLoop_append R P path cs (i + 1) acc
    · simp only [h, Bool.not_false, if_true]
      rw [patchLoop_append R P path cs (i + 1) (acc ++ _),
        patchLoop_append R P path cs (i + 1) ([] ++ _)]
      simp

theorem patchLoop_cons_skip (R P : Str) (path : Nat → Str) (c : Container)
    (cs : List Container) (i : Nat) (acc : List patchOperation) (h : R <+: c.Image) :
    patchLoop R P path (c :: cs) i acc = patchLoop R P path cs (i + 1) acc := by
  have h' := (hasPrefix_iff _ _).2 h
  rw [patchLoop]
  simp [h']

theorem patchLoop_cons_rewrite (R P : Str) (path : Nat → Str) (c : Container)
    (cs : List Container) (i : Nat) (acc : List patchOperation) (h : ¬ R <+: c.Image) :
    patchLoop R P path (c :: cs) i acc = patchLoop R P path cs (i + 1)
      (acc ++ [{ Op := "replace".toList, Path := path i,
                 Value := mutateImageName R P c.Image }]) := by
  have h' := (hasPrefix_eq_false_iff _ _).2 h
  rw [patchLoop]
  simp [h']

/-- The operations appended by a loop: exactly those for the containers whose
image does not begin with `R`, each at its own index. -/
theorem mem_patchLoop (R P : Str) (path : Nat → Str) (op : patchOperation) :
    ∀ (cs : List Container) (i : Nat),
    op ∈ patchLoop R P path cs i [] ↔
      ∃ k c, cs[k]? = some c ∧ ¬ R <+: c.Image ∧
        op = { Op := "replace".toList, Path := path (i + k),
               Value := mutateImageName R P c.Image }
  | [], i => by simp [patchLoop]
  | c :: cs, i => by
    have ih := mem_patchLoop R P path op cs (i + 1)
    by_cases h : R <+: c.Image
    · rw [patchLoop_cons_skip R P path c cs i [] h, ih]
      constructor
      · rintro ⟨k, d, hk, hd, hop⟩
        exact ⟨k + 1, d, by simpa using hk, hd, by rw [hop]; congr 2; omega⟩
      · rintro ⟨k, d, hk, hd, hop⟩
        cases k with
        | zero =>
          simp only [List.getElem?_cons_zero, Option.some.injEq] at hk
          exact absurd (hk ▸ h) hd
        | succ k =>
          exact ⟨k, d, by simpa using hk, hd, by rw [hop]; congr 2; omega⟩
    · rw [patchLoop_cons_rewrite R P path c cs i [] h, patchLoop_append, List.nil_append,
        List.mem_append, List.mem_singleton, ih]
      constructor
      · rintro (hop | ⟨k, d, hk, hd, hop⟩)
        · exact ⟨0, c, by simp, h, by simpa using hop⟩
        · exact ⟨k + 1, d, by simpa using hk, hd, by rw [hop]; congr 2; omega⟩
      · rintro ⟨k, d, hk, hd, hop⟩
        cases k with
        | zero =>
          simp only [List.getElem?_cons_zero, Option.some.injEq] at hk
          left
          rw [hop, ← hk]
          rfl
        | succ k =>
          right
          exact ⟨k, d, by simpa using hk, hd, by rw [hop]; congr 2; omega⟩

/-- No operation of a loop addresses a path outside the loop's path format. -/
theorem filter_patchLoop_other (R P : Str) (path : Nat → Str) (q : Str)
    (hq : ∀ k, path k ≠ q) (cs : List Container) (i : Nat) :
    (patchLoop R P path cs i []).filter (fun op => decide (op.Path = q)) = [] := by
  rw [List.filter_eq_nil_iff]
  intro op hop
  obtain ⟨k, c, _, _, rfl⟩ := (mem_patchLoop R P path op cs i).1 hop
  simpa using hq (i + k)

/-- The operations of a loop that address index `i + k`: none when the image of
container `k` begins with `R`, and exactly the replacement otherwise. -/
theorem filter_patchLoop (R P : Str) (path : Nat → Str) (hinj : Function.Injective path) :
    ∀ (cs : List Container) (i k : Nat) (c : Container), cs[k]? = some c →
    (patchLoop R P path cs i []).filter (fun op => decide (op.Path = path (i + k))) =
      if hasPrefix c.Image R then []
      else [{ Op := "replace".toList, Path := path (i + k),
              Value := mutateImageName R P c.Image }]
  | [], _, _, _, h => by simp at h
  | d :: cs, i, 0, c, h => by
    simp only [List.getElem?_cons_zero, Option.some.injEq] at h
    subst h
    have hrest : (patchLoop R P path cs (i + 1) []).filter
        (fun op => decide (op.Path = path (i + 0))) = [] := by
      rw [List.filter_eq_nil_iff]
      intro op hop
      obtain ⟨k, c, _, _, rfl⟩ := (mem_patchLoop R P path op cs (i + 1)).1 hop
      have : path (i + 1 + k) ≠ path (i + 0) := fun e => by
        have := hinj e
        omega
      simpa using this
    by_cases hp : R <+: d.Image
    · rw [patchLoop_cons_skip R P path d cs i [] hp, hrest, (hasPrefix_iff _ _).2 hp]
      rfl
    · rw [patchLoop_cons_rewrite R P path d cs i [] hp, patchLoop_append, List.filter_append,
        hrest, (hasPrefix_eq_false_iff _ _).2 hp]
      simp
  | d :: cs, i, k + 1, c, h => by
    have h' : cs[k]? = some c := by simpa using h
    have ih := filter_patchLoop R P path hinj cs (i + 1) k c h'
    have e : i + 1 + k = i + (k + 1) := by omega
    rw [e] at ih
    by_cases hp : R <+: d.Image
    · rw [patchLoop_cons_skip R P path d cs i [] hp, ih]
    · rw [patchLoop_cons_rewrite R P path d cs i [] hp, patchLoop_append, List.filter_append,
        ih]
      have : path i ≠ path (i + (k + 1)) := fun e => by
        have := hinj e
        omega
      simp [this]

/-- The paths of a loop's operations, in order: the path format applied to the
strictly ascending list of the indices whose image does not begin with `R`. -/
theorem map_path_patchLoop (R P : Str) (path : Nat → Str) : ∀ (cs : List Container) (i : Nat),
    ∃ ks : List Nat, ks.Pairwise (· < ·) ∧
      (∀ k, k ∈ ks ↔ i ≤ k ∧ ∃ c, cs[k - i]? = some c ∧ ¬ R <+: c.Image) ∧
      (patchLoop R P path cs i []).map (fun op => op.Path) = ks.map path
  | [], i => ⟨[], List.Pairwise.nil, by simp, by simp [patchLoop]⟩
  | d :: cs, i => by
    obtain ⟨ks, hsorted, hmem, hmap⟩ := map_path_patchLoop R P path cs (i + 1)
    have hshift : ∀ k, (i + 1 ≤ k ∧ ∃ c, cs[k - (i + 1)]? = some c ∧ ¬ R <+: c.Image) ↔
        (i < k ∧ ∃ c, (d :: cs)[k - i]? = some c ∧ ¬ R <+: c.Image) := by
      intro k
      constructor
      · rintro ⟨hk, c, hc, hn⟩
        refine ⟨hk, c, ?_, hn⟩
        have : k - i = (k - (i + 1)) + 1 := by omega
        rw [this]
        simpa using hc
      · rintro ⟨hk, c, hc, hn⟩
        refine ⟨hk, c, ?_, hn⟩
        have : k - i = (k - (i + 1)) + 1 := by omega
        rw [this] at hc
        simpa using hc
    by_cases hp : R <+: d.Image
    · refine ⟨ks, hsorted, ?_, ?_⟩
      · intro k
        rw [hmem k, hshift k]
        constructor
        · rintro ⟨hk, h⟩
          exact ⟨Nat.le_of_lt hk, h⟩
        · rintro ⟨hk, c, hc, hn⟩
          rcases Nat.eq_or_lt_of_le hk with e | hlt
          · subst e
            simp only [Nat.sub_self, List.getElem?_cons_zero, Option.some.injEq] at hc
            exact absurd (hc ▸ hp) hn
          · exact ⟨hlt, c, hc, hn⟩
      · rw [patchLoop_cons_skip R P path d cs i [] hp, hmap]
    · refine ⟨i :: ks, ?_, ?_, ?_⟩
      · rw [List.pairwise_cons]
        refine ⟨fun k hk => ?_, hsorted⟩
        have := ((hmem k).1 hk).1
        omega
      · intro k
        rw [List.mem_cons, hmem k, hshift k]
        constructor
        · rintro (e | ⟨hk, h⟩)
          · subst e
            exact ⟨Nat.le_refl _, d, by simp, hp⟩
          · exact ⟨Nat.le_of_lt hk, h⟩
        · rintro ⟨hk, h⟩
          rcases Nat.eq_or_lt_of_le hk with e | hlt
          · left
            exact e.symm
          · right
            exact ⟨hlt, h⟩
      · rw [patchLoop_cons_rewrite R P path d cs i [] hp, patchLoop_append, List.map_append,
          hmap]
        simp

theorem buildPatches_eq (R P : Str) (pod : Pod) :
    buildPatches R P pod = patchLoop R P containerPath pod.Spec.Containers 0 []
      ++ patchLoop R P initContainerPath pod.Spec.InitContainers 0 [] := by
  unfold buildPatches
  exact patchLoop_append R P initContainerPath _ 0 _

/-! ## Re-admission of the patched Pod -/

theorem getElem?_replaceImage (path : Nat → Str) (op : patchOperation) :
    ∀ (cs : List Container) (i k : Nat),
    (replaceImage path op cs i)[k]? = (cs[k]?).map (fun c =>
      if op.Op = "replace".toList ∧ op.Path = path (i + k) then { c with Image := op.Value }
      else c)
  | [], _, _ => by simp [replaceImage]
  | c :: cs, i, 0 => by simp [replaceImage]
  | c :: cs, i, k + 1 => by
    have ih := getElem?_replaceImage path op cs (i + 1) k
    have e : i + 1 + k = i + (k + 1) := by omega
    rw [e] at ih
    simpa [replaceImage] using ih

/-- After a list of operations whose values all begin with `R` is applied, every
container begins with `R`, provided each container that did not is addressed by
one of the operations. -/
theorem prefix_of_mem_foldl_replaceImage (R : Str) (path : Nat → Str) (i : Nat) :
    ∀ (L : List patchOperation) (cs : List Container),
    (∀ op ∈ L, R <+: op.Value) →
    (∀ k c, cs[k]? = some c → ¬ R <+: c.Image →
      ∃ op ∈ L, op.Op = "replace".toList ∧ op.Path = path (i + k)) →
    ∀ c ∈ L.foldl (fun cs op => replaceImage path op cs i) cs, R <+: c.Image
  | [], cs, _, hcov => by
    intro c hc
    obtain ⟨k, hk⟩ := List.mem_iff_getElem?.1 hc
    by_contra hn
    obtain ⟨op, hop, _⟩ := hcov k c hk hn
    simp at hop
  | op :: L, cs, hval, hcov => by
    rw [List.foldl_cons]
    apply prefix_of_mem_foldl_replaceImage R path i L _
      (fun o ho => hval o (List.mem_cons_of_mem _ ho))
    intro k c' hk hn
    rw [getElem?_replaceImage, Option.map_eq_some'] at hk
    obtain ⟨c, hc, hc'⟩ := hk
    by_cases hcond : op.Op = "replace".toList ∧ op.Path = path (i + k)
    · rw [if_pos hcond] at hc'
      exfalso
      apply hn
      rw [← hc']
      exact hval op (List.mem_cons_self _ _)
    · rw [if_neg hcond] at hc'
      subst hc'
      obtain ⟨o, ho, ho1, ho2⟩ := hcov k c hc hn
      rcases List.mem_cons.1 ho with e | ho'
      · subst e
        exact absurd ⟨ho1, ho2⟩ hcond
      · exact ⟨o, ho', ho1, ho2⟩

theorem applyPatch_containers (L : List patchOperation) : ∀ (pod : Pod),
    (applyPatch L pod).Spec.Containers =
      L.foldl (fun cs op => replaceImage containerPath op cs 0) pod.Spec.Containers := by
  induction L with
  | nil => intro pod; rfl
  | cons op L ih =>
    intro pod
    unfold applyPatch at ih ⊢
    rw [List.foldl_cons, ih, List.foldl_cons]
    rfl

theorem applyPatch_initContainers (L : List patchOperation) : ∀ (pod : Pod),
    (applyPatch L pod).Spec.InitContainers =
      L.foldl (fun cs op => replaceImage initContainerPath op cs 0) pod.Spec.InitContainers := by
  induction L with
  | nil => intro pod; rfl
  | cons op L ih =>
    intro pod
    unfold applyPatch at ih ⊢
    rw [List.foldl_cons, ih, List.foldl_cons]
    rfl

theorem patchLoop_all_skip (R P : Str) (path : Nat → Str) : ∀ (cs : List Container) (i : Nat)
    (acc : List patchOperation), (∀ c ∈ cs, R <+: c.Image) →
    patchLoop R P path cs i acc = acc
  | [], _, _, _ => by simp [patchLoop]
  | c :: cs, i, acc, h => by
    rw [patchLoop_cons_skip R P path c cs i acc (h c (List.mem_cons_self _ _))]
    exact patchLoop_all_skip R P path cs (i + 1) acc
      (fun d hd => h d (List.mem_cons_of_mem _ hd))

theorem prefix_value_of_mem_buildPatches (R P : Str) (pod : Pod) (op : patchOperation)
    (h : op ∈ buildPatches R P pod) : R <+: op.Value := by
  rw [buildPatches_eq, List.mem_append, mem_patchLoop, mem_patchLoop] at h
  rcases h with ⟨_, c, _, _, rfl⟩ | ⟨_, c, _, _, rfl⟩ <;> exact prefix_mutateImageName R P c.Image

/-- A Pod patched with the operations computed for it needs no operation. -/
theorem buildPatches_applyPatch (R P : Str) (pod : Pod) :
    buildPatches R P (applyPatch (buildPatches R P pod) pod) = [] := by
  have hval := prefix_value_of_mem_buildPatches R P pod
  have h1 : ∀ c ∈ (applyPatch (buildPatches R P pod) pod).Spec.Containers, R <+: c.Image := by
    rw [applyPatch_containers]
    apply prefix_of_mem_foldl_replaceImage R containerPath 0 _ _ hval
    intro k c hk hn
    refine ⟨{ Op := "replace".toList, Path := containerPath (0 + k),
              Value := mutateImageName R P c.Image }, ?_, rfl, rfl⟩
    rw [buildPatches_eq, List.mem_append, mem_patchLoop]
    exact Or.inl ⟨k, c, hk, hn, rfl⟩
  have h2 : ∀ c ∈ (applyPatch (buildPatches R P pod) pod).Spec.InitContainers,
      R <+: c.Image := by
    rw [applyPatch_initContainers]
    apply prefix_of_mem_foldl_replaceImage R initContainerPath 0 _ _ hval
    intro k c hk hn
    refine ⟨{ Op := "replace".toList, Path := initContainerPath (0 + k),
              Value := mutateImageName R P c.Image }, ?_, rfl, rfl⟩
    rw [buildPatches_eq, List.mem_append, mem_patchLoop, mem_patchLoop]
    exact Or.inr ⟨k, c, hk, hn, rfl⟩
  rw [buildPatches_eq, patchLoop_all_skip R P _ _ 0 [] h1,
    patchLoop_all_skip R P _ _ 0 [] h2]
  rfl

/-! ## The image rewrite rule: claims C1, C2, C3 and C10 -/

/-- C1 (plain rewrite): for an image `I` that does not begin with the private
registry `R` and does not contain `@sha256:`, `mutateImageName` returns exactly
`R ++ "/" ++ P ++ "/" ++ I`, with `I` unchanged. -/
theorem C1_plain_rewrite (R P I : Str) (hR : ¬ R <+: I) (hD : ¬ "@sha256:".toList <:+: I) :
    mutateImageName R P I = R ++ "/".toList ++ P ++ "/".toList ++ I :=
  mutateImageName_plain R P I hR hD

/-- C1 at `R = "reg.internal"`, `P = "mirror"`, `I = "nginx:latest"`. -/
theorem C1_plain_rewrite_witness :
    mutateImageName "reg.internal".toList "mirror".toList "nginx:latest".toList
      = "reg.internal/mirror/nginx:latest".toList :=
  C1_plain_rewrite "reg.internal".toList "mirror".toList "nginx:latest".toList
    (by decide) (by decide)

/-- C2 (digest stripping): for an image `I` that does not begin with the private
registry `R` and whose first occurrence of `@sha256:` comes right after `T`
(so `I = T ++ "@sha256:" ++ rest` and no decomposition has a shorter `T`),
`mutateImageName` returns `R ++ "/" ++ P ++ "/" ++ T`: the marker and all that
follows it are dropped. -/
theorem C2_digest_stripping (R P I T rest : Str) (hR : ¬ R <+: I)
    (hI : I = T ++ "@sha256:".toList ++ rest)
    (hfirst : ∀ T' rest', I = T' ++ "@sha256:".toList ++ rest' → T.length ≤ T'.length) :
    mutateImageName R P I = R ++ "/".toList ++ P ++ "/".toList ++ T :=
  mutateImageName_digest R P I T rest hR hI hfirst

/-- C2 at `I = "public.io/app:1.0@sha256:abcd"`: the digest is removed. -/
theorem C2_digest_stripping_witness :
    mutateImageName "reg.internal".toList "mirror".toList
        "public.io/app:1.0@sha256:abcd".toList
      = "reg.internal/mirror/public.io/app:1.0".toList :=
  C2_digest_stripping "reg.internal".toList "mirror".toList
    "public.io/app:1.0@sha256:abcd".toList "public.io/app:1.0".toList "abcd".toList
    (by decide) (by decide)
    (by
      intro T' rest' h
      have hp : "@sha256:".toList <+:
          ("public.io/app:1.0@sha256:abcd".toList).drop T'.length := by
        rw [h, List.append_assoc, List.drop_left]
        exact List.prefix_append _ _
      by_contra hlt
      have hlt' : T'.length < 17 := by
        have : ("public.io/app:1.0".toList).length = 17 := by decide
        omega
      generalize T'.length = n at hp hlt'
      interval_cases n <;> exact absurd hp (by decide))

/-- C3 (idempotence of the rewrite): an image that begins with `R` is returned
unchanged and its container adds no operation in either loop; the rewritten form
of any image begins with `R`; rewriting twice equals rewriting once; and the Pod
obtained by applying the computed operations yields no operation when it is
admitted again. -/
theorem C3_idempotence (R P I : Str) :
    (R <+: I → mutateImageName R P I = I ∧
      ∀ (path : Nat → Str) (rest : List Container) (i : Nat) (patches : List patchOperation),
        patchLoop R P path (⟨I⟩ :: rest) i patches = patchLoop R P path rest (i + 1) patches) ∧
    R <+: mutateImageName R P I ∧
    mutateImageName R P (mutateImageName R P I) = mutateImageName R P I ∧
    ∀ pod : Pod, buildPatches R P (applyPatch (buildPatches R P pod) pod) = [] :=
  ⟨fun h => ⟨mutateImageName_unchanged R P I h,
      fun path rest i patches => patchLoop_cons_skip R P path ⟨I⟩ rest i patches h⟩,
    prefix_mutateImageName R P I,
    mutateImageName_unchanged R P _ (prefix_mutateImageName R P I),
    buildPatches_applyPatch R P⟩

/-- C3 at `R = "reg.internal"`, `P = "mirror"`, `I = "reg.internal/mirror/nginx:latest"`
and the Pod `mixedPod`, whose patched form is computed. -/
theorem C3_idempotence_witness :
    mutateImageName "reg.internal".toList "mirror".toList
        "reg.internal/mirror/nginx:latest".toList = "reg.internal/mirror/nginx:latest".toList ∧
    (applyPatch (buildPatches "reg.internal".toList "mirror".toList mixedPod) mixedPod).Spec
      = { Containers := [⟨"reg.internal/mirror/busybox".toList⟩,
            ⟨"reg.internal/mirror/b".toList⟩,
            ⟨"reg.internal/mirror/public.io/app:1.0".toList⟩]
          InitContainers := [⟨"reg.internal/mirror/i".toList⟩,
            ⟨"reg.internal/mirror/alpine:3".toList⟩] } ∧
    buildPatches "reg.internal".toList "mirror".toList
      (applyPatch (buildPatches "reg.internal".toList "mirror".toList mixedPod) mixedPod) = [] :=
  ⟨((C3_idempotence "reg.internal".toList "mirror".toList
      "reg.internal/mirror/nginx:latest".toList).1 (by decide)).1,
    by decide,
    (C3_idempotence "reg.internal".toList "mirror".toList []).2.2.2 mixedPod⟩

/-- C10 (digest-free values): when neither `R` nor `P` contains `@sha256:`, the
value of every operation in the patch list of any Pod contains no `@sha256:`. -/
theorem C10_digest_free (R P : Str) (pod : Pod) (hR : ¬ "@sha256:".toList <:+: R)
    (hP : ¬ "@sha256:".toList <:+: P) :
    ∀ op ∈ buildPatches R P pod, ¬ "@sha256:".toList <:+: op.Value := by
  intro op hop
  rw [buildPatches_eq, List.mem_append, mem_patchLoop, mem_patchLoop] at hop
  rcases hop with ⟨_, c, _, hc, rfl⟩ | ⟨_, c, _, hc, rfl⟩ <;>
    exact not_infix_mutateImageName R P c.Image hc hR hP

/-- C10 at `mixedPod`, whose third image carries a digest: the value of the
operation for that container holds no `@sha256:`. -/
theorem C10_digest_free_witness :
    ¬ "@sha256:".toList <:+: "reg.internal/mirror/public.io/app:1.0".toList :=
  C10_digest_free "reg.internal".toList "mirror".toList mixedPod (by decide) (by decide)
    { Op := "replace".toList, Path := "/spec/containers/2/image".toList,
      Value := "reg.internal/mirror/public.io/app:1.0".toList } (by decide)

/-! ## The patch list: claims C4 and C5 -/

/-- C4 (sparse patch): in the patch list of any Pod, the operations addressing
`/spec/containers/<i>/image` (and likewise `/spec/initContainers/<i>/image`) are
none when the image of container `i` begins with `R`, and exactly the one
operation `replace` with the rewritten image as value otherwise; every operation
of the list addresses an existing container in this way; `<i>` is the index in
decimal; and a Pod with three containers of which only the second needs
rewriting gets exactly one operation, at `/spec/containers/1/image`. -/
theorem C4_sparse_patch (R P : Str) (pod : Pod) :
    (∀ i c, pod.Spec.Containers[i]? = some c →
      (buildPatches R P pod).filter (fun op => decide (op.Path = containerPath i)) =
        if R <+: c.Image then []
        else [{ Op := "replace".toList, Path := containerPath i,
                Value := mutateImageName R P c.Image }]) ∧
    (∀ i c, pod.Spec.InitContainers[i]? = some c →
      (buildPatches R P pod).filter (fun op => decide (op.Path = initContainerPath i)) =
        if R <+: c.Image then []
        else [{ Op := "replace".toList, Path := initContainerPath i,
                Value := mutateImageName R P c.Image }]) ∧
    (∀ op ∈ buildPatches R P pod,
      (∃ i c, pod.Spec.Containers[i]? = some c ∧ ¬ R <+: c.Image ∧
        op = { Op := "replace".toList, Path := containerPath i,
               Value := mutateImageName R P c.Image }) ∨
      (∃ i c, pod.Spec.InitContainers[i]? = some c ∧ ¬ R <+: c.Image ∧
        op = { Op := "replace".toList, Path := initContainerPath i,
               Value := mutateImageName R P c.Image })) ∧
    (∀ i, containerPath i = "/spec/containers/".toList ++ fmtD i ++ "/image".toList ∧
      initContainerPath i = "/spec/initContainers/".toList ++ fmtD i ++ "/image".toList ∧
      readDecimal 0 (fmtD i) = i) ∧
    (∀ c₀ c₁ c₂ : Container, pod.Spec.Containers = [c₀, c₁, c₂] → pod.Spec.InitContainers = [] →
      R <+: c₀.Image → ¬ R <+: c₁.Image → R <+: c₂.Image →
      buildPatches R P pod = [{ Op := "replace".toList, Path := "/spec/containers/1/image".toList,
                                Value := mutateImageName R P c₁.Image }]) := by
  refine ⟨?_, ?_, ?_, ?_, ?_⟩
  · intro i c hc
    have hf := filter_patchLoop R P containerPath containerPath_injective
      pod.Spec.Containers 0 i c hc
    have ho := filter_patchLoop_other R P initContainerPath (containerPath i)
      (fun k e => containerPath_ne_initContainerPath i k e.symm) pod.Spec.InitContainers 0
    rw [Nat.zero_add] at hf
    rw [buildPatches_eq, List.filter_append, hf, ho, List.append_nil]
    by_cases h : R <+: c.Image
    · rw [(hasPrefix_iff _ _).2 h, if_pos h]
      rfl
    · rw [(hasPrefix_eq_false_iff _ _).2 h, if_neg h]
      rfl
  · intro i c hc
    have hf := filter_patchLoop R P initContainerPath initContainerPath_injective
      pod.Spec.InitContainers 0 i c hc
    have ho := filter_patchLoop_other R P containerPath (initContainerPath i)
      (fun k e => containerPath_ne_initContainerPath k i e) pod.Spec.Containers 0
    rw [Nat.zero_add] at hf
    rw [buildPatches_eq, List.filter_append, hf, ho, List.nil_append]
    by_cases h : R <+: c.Image
    · rw [(hasPrefix_iff _ _).2 h, if_pos h]
      rfl
    · rw [(hasPrefix_eq_false_iff _ _).2 h, if_neg h]
      rfl
  · intro op hop
    rw [buildPatches_eq, List.mem_append, mem_patchLoop, mem_patchLoop] at hop
    simpa only [Nat.zero_add] using hop
  · intro i
    exact ⟨rfl, rfl, readDecimal_toDigitsCore (i + 1) i [] (Nat.lt_succ_self i)⟩
  · intro c₀ c₁ c₂ hcs hinit h₀ h₁ h₂
    rw [buildPatches_eq, hcs, hinit, patchLoop_cons_skip R P _ c₀ _ 0 [] h₀,
      patchLoop_cons_rewrite R P _ c₁ _ 1 [] h₁, patchLoop_cons_skip R P _ c₂ _ 2 _ h₂]
    rfl

/-- C4 at `samplePod`: the whole patch list is the one operation for the second
container. -/
theorem C4_sparse_patch_witness :
    buildPatches "reg.internal".toList "mirror".toList
        { samplePod with Spec := { samplePod.Spec with InitContainers := [] } }
      = [{ Op := "replace".toList, Path := "/spec/containers/1/image".toList,
           Value := "reg.internal/mirror/nginx:latest".toList }] :=
  (C4_sparse_patch "reg.internal".toList "mirror".toList
      { samplePod with Spec := { samplePod.Spec with InitContainers := [] } }).2.2.2.2
    ⟨"reg.internal/mirror/a:1".toList⟩ ⟨"nginx:latest".toList⟩
    ⟨"reg.internal/mirror/c:3".toList⟩ rfl rfl (by decide) (by decide) (by decide)

/-- C5 (order preservation): the paths of the patch list of any Pod are the
container paths of a strictly ascending list of indices followed by the init
container paths of a strictly ascending list of indices, the two lists holding
exactly the positions whose image does not begin with `R`; no container path
is an init container path. -/
theorem C5_order_preservation (R P : Str) (pod : Pod) :
    ∃ is js : List Nat, is.Pairwise (· < ·) ∧ js.Pairwise (· < ·) ∧
      (∀ k, k ∈ is ↔ ∃ c, pod.Spec.Containers[k]? = some c ∧ ¬ R <+: c.Image) ∧
      (∀ k, k ∈ js ↔ ∃ c, pod.Spec.InitContainers[k]? = some c ∧ ¬ R <+: c.Image) ∧
      (buildPatches R P pod).map (fun op => op.Path)
        = is.map containerPath ++ js.map initContainerPath ∧
      (∀ a b, containerPath a ≠ initContainerPath b) := by
  obtain ⟨is, h1, h2, h3⟩ := map_path_patchLoop R P containerPath pod.Spec.Containers 0
  obtain ⟨js, h4, h5, h6⟩ := map_path_patchLoop R P initContainerPath pod.Spec.InitContainers 0
  refine ⟨is, js, h1, h4, ?_, ?_, ?_, containerPath_ne_initContainerPath⟩
  · intro k
    simpa using h2 k
  · intro k
    simpa using h5 k
  · rw [buildPatches_eq, List.map_append, h3, h6]

/-- C5 at `mixedPod`: containers 0 and 2 and init container 1 need rewriting, and
the operations come in the order container 0, container 2, init container 1. -/
theorem C5_order_preservation_witness :
    (buildPatches "reg.internal".toList "mirror".toList mixedPod).map (fun op => op.Path)
        = ["/spec/containers/0/image".toList, "/spec/containers/2/image".toList,
           "/spec/initContainers/1/image".toList] ∧
    ∃ is js : List Nat, is.Pairwise (· < ·) ∧ js.Pairwise (· < ·) ∧
      (∀ k, k ∈ is ↔ ∃ c, mixedPod.Spec.Containers[k]? = some c ∧
        ¬ "reg.internal".toList <+: c.Image) ∧
      (∀ k, k ∈ js ↔ ∃ c, mixedPod.Spec.InitContainers[k]? = some c ∧
        ¬ "reg.internal".toList <+: c.Image) ∧
      (buildPatches "reg.internal".toList "mirror".toList mixedPod).map (fun op => op.Path)
        = is.map containerPath ++ js.map initContainerPath ∧
      (∀ a b, containerPath a ≠ initContainerPath b) :=
  ⟨by decide, C5_order_preservation "reg.internal".toList "mirror".toList mixedPod⟩

/-! ## The handler: claims C6, C7, C8 and C9 -/

/-- The response of the handler once the envelope is decoded, the request is
present, the Pod is extracted and both configuration values are non-empty. -/
theorem HandleMutate_ok (decode : Bytes → Except Str AdmissionReview)
    (unmarshalPod : Bytes → Except Str Pod) (quote : Str → Str) (getenv : Str → Str)
    (body : Bytes) (review : AdmissionReview) (request : AdmissionRequest) (pod : Pod)
    (hdec : decode body = .ok review) (hreq : review.Request = some request)
    (hpod : unmarshalPod request.Object = .ok pod)
    (hR : getenv "PRIVATE_REGISTRY".toList ≠ []) (hP : getenv "PUBLIC_PROJECT".toList ≠ []) :
    ∃ patchBytes,
      jsonMarshalPatches quote (buildPatches (getenv "PRIVATE_REGISTRY".toList)
        (getenv "PUBLIC_PROJECT".toList) pod) = .ok patchBytes ∧
      HandleMutate decode unmarshalPod quote getenv body = .write
        { APIVersion := "admission.k8s.io/v1".toList
          Kind := "AdmissionReview".toList
          Request := none
          Response := some { UID := request.UID, Allowed := true, Patch := patchBytes,
                             PatchType := some PatchTypeJSONPatch } } := by
  have hcfg : ¬ (getenv "PRIVATE_REGISTRY".toList = [] ∨ getenv "PUBLIC_PROJECT".toList = []) := by
    rintro (h | h)
    · exact hR h
    · exact hP h
  unfold HandleMutate
  simp only [hdec, hreq, hpod, hcfg, if_false]
  cases h : buildPatches (getenv "PRIVATE_REGISTRY".toList) (getenv "PUBLIC_PROJECT".toList) pod
    with
  | nil => exact ⟨_, rfl, rfl⟩
  | cons op ops => exact ⟨_, rfl, rfl⟩

/-- C6 (UID echo): when the envelope decodes, its request section is present,
the Pod is extracted and both configuration values are non-empty, the handler
writes an admission response whose UID is the request UID, whatever the UID, the
Pod and the patches are. -/
theorem C6_uid_echo (decode : Bytes → Except Str AdmissionReview)
    (unmarshalPod : Bytes → Except Str Pod) (quote : Str → Str) (getenv : Str → Str)
    (body : Bytes) (review : AdmissionReview) (request : AdmissionRequest) (pod : Pod)
    (hdec : decode body = .ok review) (hreq : review.Request = some request)
    (hpod : unmarshalPod request.Object = .ok pod)
    (hR : getenv "PRIVATE_REGISTRY".toList ≠ []) (hP : getenv "PUBLIC_PROJECT".toList ≠ []) :
    ∃ envelope response,
      HandleMutate decode unmarshalPod quote getenv body = .write envelope ∧
      envelope.Response = some response ∧ response.UID = request.UID := by
  obtain ⟨patchBytes, _, h⟩ :=
    HandleMutate_ok decode unmarshalPod quote getenv body review request pod hdec hreq hpod hR hP
  exact ⟨_, _, h, rfl, rfl⟩

/-- C6 at a request with the empty UID for `mixedPod`. -/
theorem C6_uid_echo_witness :
    ∃ envelope response,
      HandleMutate (decodeRequest [] "pod".toList) (unmarshalAs mixedPod) id sampleEnv
        "body".toList = .write envelope ∧
      envelope.Response = some response ∧ response.UID = [] :=
  C6_uid_echo (decodeRequest [] "pod".toList) (unmarshalAs mixedPod) id sampleEnv "body".toList
    _ { UID := [], Object := "pod".toList } mixedPod rfl rfl rfl (by decide) (by decide)

/-- C7 as stated fails: with no variable set, a body whose envelope has no
request section gets status 400 from the nil-request check, which runs before
the configuration check. -/
theorem C7_counterexample :
    unsetEnv "PRIVATE_REGISTRY".toList = [] ∧
    HandleMutate decodeWithoutRequest (unmarshalAs samplePod) id unsetEnv bodyWithoutRequest
      = .httpError "malformed admission review: request is nil".toList 400 ∧
    ¬ ∃ msg, HandleMutate decodeWithoutRequest (unmarshalAs samplePod) id unsetEnv
      bodyWithoutRequest = .httpError msg 500 := by
  refine ⟨rfl, by decide, ?_⟩
  rintro ⟨msg, h⟩
  have h' : HandleMutate decodeWithoutRequest (unmarshalAs samplePod) id unsetEnv
      bodyWithoutRequest = .httpError "malformed admission review: request is nil".toList 400 := by
    decide
  rw [h'] at h
  injection h with _ hcode
  exact absurd hcode (by decide)

/-- C7 amended (fail-closed on missing configuration): when `PRIVATE_REGISTRY` or
`PUBLIC_PROJECT` is empty, a request whose envelope decodes, whose request
section is present and whose Pod is extracted gets status 500; a request that
fails one of these three earlier checks gets status 400; and no request gets an
admission response, so no patch is produced. -/
theorem C7_missing_configuration (decode : Bytes → Except Str AdmissionReview)
    (unmarshalPod : Bytes → Except Str Pod) (quote : Str → Str) (getenv : Str → Str)
    (body : Bytes)
    (hcfg : getenv "PRIVATE_REGISTRY".toList = [] ∨ getenv "PUBLIC_PROJECT".toList = []) :
    (∀ review request pod, decode body = .ok review → review.Request = some request →
      unmarshalPod request.Object = .ok pod →
      HandleMutate decode unmarshalPod quote getenv body = .httpError
        "private registry or public project environment variables are not set".toList 500) ∧
    (∀ err, decode body = .error err →
      HandleMutate decode unmarshalPod quote getenv body =
        .httpError ("could not deserialize request: ".toList ++ err) 400) ∧
    (∀ review, decode body = .ok review → review.Request = none →
      HandleMutate decode unmarshalPod quote getenv body =
        .httpError "malformed admission review: request is nil".toList 400) ∧
    (∀ review request err, decode body = .ok review → review.Request = some request →
      unmarshalPod request.Object = .error err →
      HandleMutate decode unmarshalPod quote getenv body =
        .httpError ("could not unmarshal pod on admission request: ".toList ++ err) 400) ∧
    (∀ envelope, HandleMutate decode unmarshalPod quote getenv body ≠ .write envelope) := by
  have h500 : ∀ review request pod, decode body = .ok review → review.Request = some request →
      unmarshalPod request.Object = .ok pod →
      HandleMutate decode unmarshalPod quote getenv body = .httpError
        "private registry or public project environment variables are not set".toList 500 := by
    intro review request pod hdec hreq hpod
    unfold HandleMutate
    simp only [hdec, hreq, hpod, hcfg, if_true]
    rfl
  have hdecode : ∀ err, decode body = .error err →
      HandleMutate decode unmarshalPod quote getenv body =
        .httpError ("could not deserialize request: ".toList ++ err) 400 := by
    intro err hdec
    unfold HandleMutate
    simp only [hdec]
    rfl
  have hnil : ∀ review, decode body = .ok review → review.Request = none →
      HandleMutate decode unmarshalPod quote getenv body =
        .httpError "malformed admission review: request is nil".toList 400 := by
    intro review hdec hreq
    unfold HandleMutate
    simp only [hdec, hreq]
    rfl
  have hpodErr : ∀ review request err, decode body = .ok review →
      review.Request = some request → unmarshalPod request.Object = .error err →
      HandleMutate decode unmarshalPod quote getenv body =
        .httpError ("could not unmarshal pod on admission request: ".toList ++ err) 400 := by
    intro review request err hdec hreq hpod
    unfold HandleMutate
    simp only [hdec, hreq, hpod]
    rfl
  refine ⟨h500, hdecode, hnil, hpodErr, ?_⟩
  intro envelope
  cases hdec : decode body with
  | error err =>
    rw [hdecode err hdec]
    exact HttpResult.noConfusion
  | ok review =>
    cases hreq : review.Request with
    | none =>
      rw [hnil review hdec hreq]
      exact HttpResult.noConfusion
    | some request =>
      cases hpod : unmarshalPod request.Object with
      | error err =>
        rw [hpodErr review request err hdec hreq hpod]
        exact HttpResult.noConfusion
      | ok pod =>
        rw [h500 review request pod hdec hreq hpod]
        exact HttpResult.noConfusion

/-- C7 amended, at a well-formed request for `mixedPod` with no variable set. -/
theorem C7_missing_configuration_witness :
    HandleMutate (decodeRequest "u1".toList "pod".toList) (unmarshalAs mixedPod) id unsetEnv
      "body".toList = .httpError
        "private registry or public project environment variables are not set".toList 500 :=
  (C7_missing_configuration (decodeRequest "u1".toList "pod".toList) (unmarshalAs mixedPod) id
    unsetEnv "body".toList (Or.inl rfl)).1 _ { UID := "u1".toList, Object := "pod".toList }
    mixedPod rfl rfl rfl

/-- C8 as stated fails: for `compliantPod`, where nothing needs rewriting, the
response carries a patch payload that is present and is the JSON value `null`,
not the array `[]`, together with the patch type. -/
theorem C8_counterexample :
    buildPatches (sampleEnv "PRIVATE_REGISTRY".toList) (sampleEnv "PUBLIC_PROJECT".toList)
      compliantPod = [] ∧
    HandleMutate (decodeRequest "u1".toList "pod".toList) (unmarshalAs compliantPod) id sampleEnv
      "body".toList = .write
        { APIVersion := "admission.k8s.io/v1".toList
          Kind := "AdmissionReview".toList
          Request := none
          Response := some { UID := "u1".toList, Allowed := true, Patch := "null".toList,
                             PatchType := some "JSONPatch".toList } } ∧
    "null".toList ≠ ([] : Bytes) ∧ "null".toList ≠ "[]".toList := by
  decide

/-- C8 amended (no operation needed): when the configuration is non-empty and
every image of the Pod begins with the private registry, the handler writes an
admission response with the request UID, `allowed = true`, the patch payload
`null` (the encoding of the slice to which nothing was appended) and the patch
type `JSONPatch`. -/
theorem C8_empty_patch (decode : Bytes → Except Str AdmissionReview)
    (unmarshalPod : Bytes → Except Str Pod) (quote : Str → Str) (getenv : Str → Str)
    (body : Bytes) (review : AdmissionReview) (request : AdmissionRequest) (pod : Pod)
    (hdec : decode body = .ok review) (hreq : review.Request = some request)
    (hpod : unmarshalPod request.Object = .ok pod)
    (hR : getenv "PRIVATE_REGISTRY".toList ≠ []) (hP : getenv "PUBLIC_PROJECT".toList ≠ [])
    (hcs : ∀ c ∈ pod.Spec.Containers, getenv "PRIVATE_REGISTRY".toList <+: c.Image)
    (hinit : ∀ c ∈ pod.Spec.InitContainers, getenv "PRIVATE_REGISTRY".toList <+: c.Image) :
    HandleMutate decode unmarshalPod quote getenv body = .write
      { APIVersion := "admission.k8s.io/v1".toList
        Kind := "AdmissionReview".toList
        Request := none
        Response := some { UID := request.UID, Allowed := true, Patch := "null".toList,
                           PatchType := some "JSONPatch".toList } } := by
  obtain ⟨patchBytes, hm, h⟩ :=
    HandleMutate_ok decode unmarshalPod quote getenv body review request pod hdec hreq hpod hR hP
  have hnil : buildPatches (getenv "PRIVATE_REGISTRY".toList) (getenv "PUBLIC_PROJECT".toList)
      pod = [] := by
    rw [buildPatches_eq, patchLoop_all_skip _ _ _ _ 0 [] hcs,
      patchLoop_all_skip _ _ _ _ 0 [] hinit]
    rfl
  rw [hnil] at hm
  have hb : patchBytes = "null".toList := by
    unfold jsonMarshalPatches at hm
    injection hm with hm
    exact hm.symm
  rw [h, hb]
  rfl

/-- C8 amended, at `compliantPod`. -/
theorem C8_empty_patch_witness :
    HandleMutate (decodeRequest "u1".toList "pod".toList) (unmarshalAs compliantPod) id sampleEnv
      "body".toList = .write
        { APIVersion := "admission.k8s.io/v1".toList
          Kind := "AdmissionReview".toList
          Request := none
          Response := some { UID := "u1".toList, Allowed := true, Patch := "null".toList,
                             PatchType := some "JSONPatch".toList } } :=
  C8_empty_patch (decodeRequest "u1".toList "pod".toList) (unmarshalAs compliantPod) id sampleEnv
    "body".toList _ { UID := "u1".toList, Object := "pod".toList } compliantPod rfl rfl rfl
    (by decide) (by decide) (by decide) (by decide)

/-- C9 (null request rejection): when the envelope decodes and its request
section is nil, the handler answers status 400 with the nil-request message,
whatever the Pod decoder, the string encoder and the environment are. -/
theorem C9_null_request (decode : Bytes → Except Str AdmissionReview)
    (unmarshalPod : Bytes → Except Str Pod) (quote : Str → Str) (getenv : Str → Str)
    (body : Bytes) (review : AdmissionReview)
    (hdec : decode body = .ok review) (hreq : review.Request = none) :
    HandleMutate decode unmarshalPod quote getenv body =
      .httpError "malformed admission review: request is nil".toList 400 := by
  unfold HandleMutate
  simp only [hdec, hreq]
  rfl

/-- C9 at `bodyWithoutRequest`, with the configuration set. -/
theorem C9_null_request_witness :
    HandleMutate decodeWithoutRequest (unmarshalAs mixedPod) id sampleEnv bodyWithoutRequest =
      .httpError "malformed admission review: request is nil".toList 400 :=
  C9_null_request decodeWithoutRequest (unmarshalAs mixedPod) id sampleEnv bodyWithoutRequest
    _ rfl rfl

end AdmissionController
